import Mathlib

/-!
Shallow embedding of the e-commerce order-fulfillment workflow
(`src/file.py`): the classes `Inventory`, `User`, `Order` and their
methods `add_product`, `remove_stock`, `check_stock`, `restock`,
`add_item`, `calculate_total`, `process_order`, `place_order`.

Modelling conventions:
* Python dictionaries are insertion-ordered association lists
  `List (String × β)`: `dlookup` is `d.get(k)` / `d[k]`, `dset` is
  `d[k] = v` (update in place if the key exists, else append, which is
  exactly CPython's insertion-order semantics).
* Python `int` is `Int`; Python `float` prices are idealised as `ℚ`.
* Code that can raise an uncaught `KeyError` (subscripting `self._stock`
  or `self._products`) returns `Option`; `none` means the exception is
  raised and the run aborts with no resulting state.
* Observable side effects — the low-stock alert, the order confirmation,
  the payment charge attempt, and the "already been processed" warning —
  are collected into a `List Event`.  Plain informational log lines are
  not modelled.
* The payment gateway's `random.choice([True, True, True, False])` is an
  oracle: each `process_order` call takes the outcome the gateway would
  return as an explicit `Bool` parameter.
-/

namespace ECommerce

/-- Lookup in a Python dict modelled as an insertion-ordered assoc list:
`d.get(k)` (`none` when the key is absent). -/
def dlookup {β : Type} : List (String × β) → String → Option β
  | [], _ => none
  | (k', v') :: rest, k => if k' = k then some v' else dlookup rest k

/-- Assignment `d[k] = v`: replaces the first binding of `k` in place,
appends a new binding when `k` is absent (CPython dict semantics). -/
def dset {β : Type} : List (String × β) → String → β → List (String × β)
  | [], k, v => [(k, v)]
  | (k', v') :: rest, k, v =>
    if k' = k then (k, v) :: rest else (k', v') :: dset rest k v

/-- Read of an integer-valued dict with default `0`: `d.get(k, 0)`. -/
def dget (d : List (String × Int)) (k : String) : Int :=
  (dlookup d k).getD 0

/-- Class `Product`: id, display name and unit price (float idealised as `ℚ`). -/
structure Product where
  product_id : String
  name : String
  price : ℚ
deriving DecidableEq

/-- State of class `Inventory`: `_stock` (product id → quantity) and
`_products` (product id → `Product`). -/
structure Inventory where
  stock : List (String × Int)
  products : List (String × Product)
deriving DecidableEq

/-- Observable side effects of the workflow. -/
inductive Event where
  /-- `NotificationService.send_inventory_alert` (low-stock warning). -/
  | lowStockAlert (product_name : String) (current_stock : Int)
  /-- `NotificationService.send_order_confirmation`. -/
  | orderConfirmed (user_email : String) (order_id : String)
  /-- `PaymentProcessor.process_payment` was invoked for this amount,
  with the oracle outcome it returned. -/
  | charge (user_email : String) (amount : ℚ) (success : Bool)
  /-- The `Order ... has already been processed.` warning. -/
  | alreadyProcessed (order_id : String)
deriving DecidableEq

/-- Method `Inventory.add_product`: registers the product and adds
`quantity` to its stock (`self._stock.get(pid, 0) + quantity`), with no
check on the sign of `quantity`. -/
def add_product (inv : Inventory) (p : Product) (quantity : Int) : Inventory :=
  { products := dset inv.products p.product_id p,
    stock := dset inv.stock p.product_id (dget inv.stock p.product_id + quantity) }

/-- Method `Inventory.remove_stock`.  Guard: `self._stock.get(pid, 0) >= quantity`.
On the guard's success the code subscripts `self._stock[pid]` and
`self._products[pid]`; either subscript raises `KeyError` (`none`) when the
key is absent.  Otherwise it decrements, emits a low-stock alert when the
remaining quantity is `< 5`, and returns `True`.  A failed guard returns
`False` with no mutation. -/
def remove_stock (inv : Inventory) (product_id : String) (quantity : Int) :
    Option (Bool × Inventory × List Event) :=
  if dget inv.stock product_id ≥ quantity then
    match dlookup inv.stock product_id with
    | none => none
    | some cur =>
      match dlookup inv.products product_id with
      | none => none
      | some p =>
        some (true, { inv with stock := dset inv.stock product_id (cur - quantity) },
          if cur - quantity < 5 then [Event.lowStockAlert p.name (cur - quantity)] else [])
  else
    some (false, inv, [])

/-- Method `Inventory.check_stock`: `self._stock.get(pid, 0)`. -/
def check_stock (inv : Inventory) (product_id : String) : Int :=
  dget inv.stock product_id

/-- Method `Inventory.restock`: adds `quantity` (any sign) to a catalogued
product's stock; for an unknown product it only logs an error (no-op). -/
def restock (inv : Inventory) (product_id : String) (quantity : Int) : Inventory :=
  if (dlookup inv.products product_id).isSome then
    { inv with stock := dset inv.stock product_id (dget inv.stock product_id + quantity) }
  else
    inv

/-- State of class `Order`: id, the owning user's email, the `_items`
dict (product id → requested quantity) and the `_is_processed` flag.
The collaborators (`Inventory`, history, payment) are passed explicitly. -/
structure Order where
  order_id : String
  user_email : String
  items : List (String × Int)
  is_processed : Bool
deriving DecidableEq

/-- Method `Order.add_item`: rejects `quantity <= 0` and
`check_stock < quantity` with no mutation; otherwise
`self._items[pid] = self._items.get(pid, 0) + quantity`. -/
def add_item (inv : Inventory) (o : Order) (product_id : String) (quantity : Int) :
    Order :=
  if quantity ≤ 0 then o
  else if check_stock inv product_id < quantity then o
  else { o with
    items := dset o.items product_id ((dlookup o.items product_id).getD 0 + quantity) }

/-- Method `Order.calculate_total`: sums `self._inventory._products[pid].price * qty`
over the items; the subscript raises `KeyError` (`none`) for a product id
absent from the catalog.  The float `+=` loop is idealised as exact `ℚ`
addition. -/
def calculate_total (inv : Inventory) : List (String × Int) → Option ℚ
  | [] => some 0
  | (pid, qty) :: rest =>
    match dlookup inv.products pid with
    | none => none
    | some p => (calculate_total inv rest).map (fun t => p.price * (qty : ℚ) + t)

/-- Method `User.place_order`: appends the order to the user's history
(histories are modelled as lists of order ids). -/
def place_order (orders : List String) (order_id : String) : List String :=
  orders ++ [order_id]

/-- The reservation loop of `Order.process_order` (step 1): calls
`remove_stock` for each item in insertion order and stops at the first
failure, keeping the decrements already made. -/
def reserveItems (inv : Inventory) : List (String × Int) →
    Option (Bool × Inventory × List Event)
  | [] => some (true, inv, [])
  | (pid, qty) :: rest =>
    match remove_stock inv pid qty with
    | none => none
    | some (false, inv', evs) => some (false, inv', evs)
    | some (true, inv', evs) =>
      match reserveItems inv' rest with
      | none => none
      | some (ok, inv'', evs') => some (ok, inv'', evs ++ evs')

/-- Result of one `Order.process_order` call: the returned boolean, the
updated order, inventory and user history, and the emitted events. -/
structure ProcessResult where
  returned : Bool
  order : Order
  inv : Inventory
  orders : List String
  events : List Event
deriving DecidableEq

/-- Method `Order.process_order`.  Returns `False` immediately (with the
warning) when `_is_processed` is set; otherwise reserves every item
(failures keep earlier decrements), computes the total, charges the
payment gateway (outcome `payment_succeeds`), and on success sets
`_is_processed`, sends the confirmation and appends to the user's
history.  `none` models an uncaught `KeyError` from the inventory code. -/
def process_order (o : Order) (inv : Inventory) (orders : List String)
    (payment_succeeds : Bool) : Option ProcessResult :=
  if o.is_processed then
    some ⟨false, o, inv, orders, [Event.alreadyProcessed o.order_id]⟩
  else
    match reserveItems inv o.items with
    | none => none
    | some (false, inv', evs) => some ⟨false, o, inv', orders, evs⟩
    | some (true, inv', evs) =>
      match calculate_total inv' o.items with
      | none => none
      | some total =>
        if payment_succeeds then
          some ⟨true, { o with is_processed := true }, inv',
            place_order orders o.order_id,
            evs ++ [Event.charge o.user_email total true,
                    Event.orderConfirmed o.user_email o.order_id]⟩
        else
          some ⟨false, o, inv', orders,
            evs ++ [Event.charge o.user_email total false]⟩

/-- Result of a sequence of `process_order` calls on one order. -/
structure CallsResult where
  order : Order
  inv : Inventory
  orders : List String
  events : List Event
  returns : List Bool
deriving DecidableEq

/-- Runs `process_order` repeatedly on the same order, one payment-oracle
outcome per call, threading the state and collecting events and returned
booleans. -/
def processCalls (o : Order) (inv : Inventory) (orders : List String) :
    List Bool → Option CallsResult
  | [] => some ⟨o, inv, orders, [], []⟩
  | pay :: rest =>
    match process_order o inv orders pay with
    | none => none
    | some r =>
      match processCalls r.order r.inv r.orders rest with
      | none => none
      | some res =>
        some ⟨res.order, res.inv, res.orders, r.events ++ res.events,
          r.returned :: res.returns⟩

/-- An inventory operation of the sequences quantified over in the
stock-nonnegativity property: a reservation (`remove_stock`) or a
`restock` call. -/
inductive InvOp where
  | reserve (product_id : String) (quantity : Int)
  | restockOp (product_id : String) (quantity : Int)
deriving DecidableEq

/-- Runs a sequence of inventory operations; a raised `KeyError` aborts
the run (`none`). -/
def runOps (inv : Inventory) : List InvOp → Option Inventory
  | [] => some inv
  | InvOp.reserve pid q :: rest =>
    match remove_stock inv pid q with
    | none => none
    | some (_, inv', _) => runOps inv' rest
  | InvOp.restockOp pid q :: rest => runOps (restock inv pid q) rest

/-- Catalog unit price of a product (`0` for an unknown product id; the
theorems using it only apply it to catalogued products). -/
def priceOf (inv : Inventory) (product_id : String) : ℚ :=
  ((dlookup inv.products product_id).map Product.price).getD 0

/-- Catalog display name of a product (`""` for an unknown product id). -/
def nameOf (inv : Inventory) (product_id : String) : String :=
  ((dlookup inv.products product_id).map Product.name).getD ""

/-- Concrete product used in witnesses and counterexamples. -/
def wProd : Product := ⟨"P1", "Widget", 3⟩

/-- Concrete inventory used in witnesses and counterexamples: 10 units of
`wProd` in stock. -/
def wInv : Inventory := ⟨[("P1", 10)], [("P1", wProd)]⟩

/-- Concrete inventory with 8 units of `wProd` (the state of `wInv` after one
2-unit reservation). -/
def wInv8 : Inventory := ⟨[("P1", 8)], [("P1", wProd)]⟩

/-- Concrete inventory with 6 units of `wProd`. -/
def wInv6 : Inventory := ⟨[("P1", 6)], [("P1", wProd)]⟩

/-- Concrete inventory with 4 units of `wProd` (below the low-stock
threshold of 5). -/
def wInv4 : Inventory := ⟨[("P1", 4)], [("P1", wProd)]⟩

/-- Concrete unprocessed order requesting 2 units of `wProd`. -/
def wOrder : Order := ⟨"O1", "a@b.c", [("P1", 2)], false⟩

/-- The order `wOrder` with its processed flag already set. -/
def wOrderDone : Order := ⟨"O1", "a@b.c", [("P1", 2)], true⟩

/-- Concrete unprocessed order with no items. -/
def wOrder0 : Order := ⟨"O2", "a@b.c", [], false⟩

/-! Basic facts about the dict model. -/

theorem dlookup_dset_self {β : Type} (d : List (String × β)) (k : String) (v : β) :
    dlookup (dset d k v) k = some v := by
  induction d with
  | nil => simp [dset, dlookup]
  | cons hd tl ih =>
    obtain ⟨k', v'⟩ := hd
    by_cases h : k' = k
    · simp [dset, dlookup, h]
    · simp [dset, dlookup, h, ih]

theorem dlookup_dset_ne {β : Type} (d : List (String × β)) (k k' : String) (v : β)
    (h : k' ≠ k) : dlookup (dset d k v) k' = dlookup d k' := by
  induction d with
  | nil => simp [dset, dlookup, Ne.symm h]
  | cons hd tl ih =>
    obtain ⟨ka, va⟩ := hd
    by_cases hk : ka = k
    · subst hk
      simp [dset, dlookup, Ne.symm h]
    · simp only [dset, if_neg hk]
      by_cases hk' : ka = k'
      · simp [dlookup, hk']
      · simp [dlookup, hk', ih]

theorem mem_dset {β : Type} (d : List (String × β)) (k : String) (v : β)
    (x : String × β) (hx : x ∈ dset d k v) : x = (k, v) ∨ x ∈ d := by
  induction d with
  | nil => simpa [dset] using hx
  | cons hd tl ih =>
    obtain ⟨k', v'⟩ := hd
    by_cases h : k' = k
    · simp only [dset, if_pos h, List.mem_cons] at hx
      rcases hx with hx | hx
      · exact Or.inl hx
      · exact Or.inr (List.mem_cons_of_mem _ hx)
    · simp only [dset, if_neg h, List.mem_cons] at hx
      rcases hx with hx | hx
      · exact Or.inr (by simp [hx])
      · rcases ih hx with hx' | hx'
        · exact Or.inl hx'
        · exact Or.inr (List.mem_cons_of_mem _ hx')

theorem dlookup_mem {β : Type} (d : List (String × β)) (k : String) (v : β)
    (h : dlookup d k = some v) : (k, v) ∈ d := by
  induction d with
  | nil => simp [dlookup] at h
  | cons hd tl ih =>
    obtain ⟨k', v'⟩ := hd
    by_cases hk : k' = k
    · subst hk
      simp [dlookup] at h
      simp [h]
    · simp only [dlookup, if_neg hk] at h
      exact List.mem_cons_of_mem _ (ih h)

theorem dget_dset_self (d : List (String × Int)) (k : String) (v : Int) :
    dget (dset d k v) k = v := by
  simp [dget, dlookup_dset_self]

/-! Case analysis of `remove_stock`. -/

theorem remove_stock_cases (inv : Inventory) (pid : String) (q : Int)
    (res : Bool × Inventory × List Event) (h : remove_stock inv pid q = some res) :
    (res = (false, inv, []) ∧ dget inv.stock pid < q) ∨
    (∃ cur p, dlookup inv.stock pid = some cur ∧ dlookup inv.products pid = some p ∧
      q ≤ dget inv.stock pid ∧
      res = (true, { inv with stock := dset inv.stock pid (cur - q) },
        if cur - q < 5 then [Event.lowStockAlert p.name (cur - q)] else [])) := by
  rw [remove_stock] at h
  split at h
  · rename_i hge
    rcases hsl : dlookup inv.stock pid with _ | cur
    · rw [hsl] at h
      simp at h
    · rw [hsl] at h
      rcases hpl : dlookup inv.products pid with _ | p
      · rw [hpl] at h
        simp at h
      · rw [hpl] at h
        simp only [Option.some.injEq] at h
        exact Or.inr ⟨cur, p, rfl, rfl, hge, h.symm⟩
  · rename_i hlt
    simp only [Option.some.injEq] at h
    exact Or.inl ⟨h.symm, by omega⟩

theorem remove_stock_products (inv : Inventory) (pid : String) (q : Int)
    (res : Bool × Inventory × List Event) (h : remove_stock inv pid q = some res) :
    res.2.1.products = inv.products := by
  rcases remove_stock_cases inv pid q res h with ⟨hres, _⟩ | ⟨cur, p, _, _, _, hres⟩ <;>
    subst hres <;> rfl

theorem remove_stock_no_charge (inv : Inventory) (pid : String) (q : Int)
    (res : Bool × Inventory × List Event) (h : remove_stock inv pid q = some res)
    (e : String) (a : ℚ) (b : Bool) : Event.charge e a b ∉ res.2.2 := by
  rcases remove_stock_cases inv pid q res h with ⟨hres, _⟩ | ⟨cur, p, _, _, _, hres⟩ <;>
    subst hres
  · simp
  · show Event.charge e a b ∉ (if cur - q < 5 then [Event.lowStockAlert p.name (cur - q)] else [])
    split <;> simp

theorem dget_nonneg (d : List (String × Int)) (k : String)
    (hnn : ∀ x ∈ d, 0 ≤ x.2) : 0 ≤ dget d k := by
  rcases hsl : dlookup d k with _ | v
  · simp [dget, hsl]
  · have := hnn _ (dlookup_mem _ _ _ hsl)
    simpa [dget, hsl] using this

theorem remove_stock_nonneg (inv : Inventory) (pid : String) (q : Int)
    (res : Bool × Inventory × List Event) (h : remove_stock inv pid q = some res)
    (hnn : ∀ x ∈ inv.stock, 0 ≤ x.2) : ∀ x ∈ res.2.1.stock, 0 ≤ x.2 := by
  rcases remove_stock_cases inv pid q res h with ⟨hres, _⟩ | ⟨cur, p, hsl, hpl, hge, hres⟩
  · subst hres; exact hnn
  · subst hres
    intro x hx
    rcases mem_dset _ _ _ _ hx with hx' | hx'
    · have hcur : dget inv.stock pid = cur := by simp [dget, hsl]
      subst hx'
      show 0 ≤ cur - q
      omega
    · exact hnn x hx'

theorem restock_nonneg (inv : Inventory) (pid : String) (q : Int) (hq : 0 ≤ q)
    (hnn : ∀ x ∈ inv.stock, 0 ≤ x.2) : ∀ x ∈ (restock inv pid q).stock, 0 ≤ x.2 := by
  rw [restock]
  split
  · intro x hx
    rcases mem_dset _ _ _ _ hx with hx' | hx'
    · subst hx'
      show 0 ≤ dget inv.stock pid + q
      have := dget_nonneg inv.stock pid hnn
      omega
    · exact hnn x hx'
  · exact hnn

theorem calculate_total_eq_sum (inv : Inventory) (items : List (String × Int)) (t : ℚ)
    (h : calculate_total inv items = some t) :
    t = (items.map (fun it => priceOf inv it.1 * (it.2 : ℚ))).sum := by
  induction items generalizing t with
  | nil =>
    simp [calculate_total] at h
    simp [← h]
  | cons it rest ih =>
    obtain ⟨pid, qty⟩ := it
    rcases hpl : dlookup inv.products pid with _ | p
    · simp [calculate_total, hpl] at h
    · simp only [calculate_total, hpl] at h
      rcases hrec : calculate_total inv rest with _ | t'
      · rw [hrec] at h; simp at h
      · rw [hrec] at h
        simp at h
        subst h
        simp [ih t' hrec, priceOf, hpl]

theorem reserveItems_products (inv : Inventory) (items : List (String × Int))
    (ok : Bool) (inv' : Inventory) (evs : List Event)
    (h : reserveItems inv items = some (ok, inv', evs)) :
    inv'.products = inv.products := by
  induction items generalizing inv ok inv' evs with
  | nil =>
    simp [reserveItems] at h
    rw [← h.2.1]
  | cons it rest ih =>
    obtain ⟨pid, qty⟩ := it
    rw [reserveItems] at h
    rcases hr : remove_stock inv pid qty with _ | ⟨rok, inv2, revs⟩
    · rw [hr] at h; simp at h
    · rw [hr] at h
      cases rok
      · simp at h
        rw [← h.2.1]
        exact remove_stock_products inv pid qty _ hr
      · dsimp only at h
        rcases hrec : reserveItems inv2 rest with _ | ⟨ok2, inv3, evs3⟩
        · rw [hrec] at h; simp at h
        · rw [hrec] at h
          simp at h
          rw [← h.2.1]
          rw [ih inv2 ok2 inv3 evs3 hrec]
          exact remove_stock_products inv pid qty _ hr

theorem reserveItems_no_charge (inv : Inventory) (items : List (String × Int))
    (ok : Bool) (inv' : Inventory) (evs : List Event)
    (h : reserveItems inv items = some (ok, inv', evs))
    (e : String) (a : ℚ) (b : Bool) : Event.charge e a b ∉ evs := by
  induction items generalizing inv ok inv' evs with
  | nil =>
    simp [reserveItems] at h
    rw [h.2.2]
    simp
  | cons it rest ih =>
    obtain ⟨pid, qty⟩ := it
    rw [reserveItems] at h
    rcases hr : remove_stock inv pid qty with _ | ⟨rok, inv2, revs⟩
    · rw [hr] at h; simp at h
    · rw [hr] at h
      cases rok
      · simp at h
        rw [← h.2.2]
        exact remove_stock_no_charge inv pid qty _ hr e a b
      · dsimp only at h
        rcases hrec : reserveItems inv2 rest with _ | ⟨ok2, inv3, evs3⟩
        · rw [hrec] at h; simp at h
        · rw [hrec] at h
          simp at h
          rw [← h.2.2]
          simp only [List.mem_append, not_or]
          exact ⟨remove_stock_no_charge inv pid qty _ hr e a b, ih inv2 ok2 inv3 evs3 hrec⟩

theorem process_order_cases (o : Order) (inv : Inventory) (orders : List String)
    (pay : Bool) (r : ProcessResult) (h : process_order o inv orders pay = some r) :
    (o.is_processed = true ∧
      r = ⟨false, o, inv, orders, [Event.alreadyProcessed o.order_id]⟩) ∨
    (o.is_processed = false ∧ ∃ inv' evs,
      (reserveItems inv o.items = some (false, inv', evs) ∧
        r = ⟨false, o, inv', orders, evs⟩) ∨
      (∃ total, reserveItems inv o.items = some (true, inv', evs) ∧
        calculate_total inv' o.items = some total ∧
        ((pay = true ∧
            r = ⟨true, { o with is_processed := true }, inv',
              place_order orders o.order_id,
              evs ++ [Event.charge o.user_email total true,
                      Event.orderConfirmed o.user_email o.order_id]⟩) ∨
          (pay = false ∧
            r = ⟨false, o, inv', orders,
              evs ++ [Event.charge o.user_email total false]⟩)))) := by
  rw [process_order] at h
  split at h
  · rename_i hp
    left
    refine ⟨hp, ?_⟩
    simp only [Option.some.injEq] at h
    exact h.symm
  · rename_i hp
    right
    refine ⟨by simpa using hp, ?_⟩
    rcases hres : reserveItems inv o.items with _ | ⟨ok, inv2, evs2⟩
    · rw [hres] at h; simp at h
    · rw [hres] at h
      cases ok
      · dsimp only at h
        simp only [Option.some.injEq] at h
        exact ⟨inv2, evs2, Or.inl ⟨rfl, h.symm⟩⟩
      · dsimp only at h
        rcases htot : calculate_total inv2 o.items with _ | total
        · rw [htot] at h; simp at h
        · rw [htot] at h
          dsimp only at h
          refine ⟨inv2, evs2, Or.inr ⟨total, rfl, htot, ?_⟩⟩
          cases pay
          · right
            refine ⟨rfl, ?_⟩
            simp only [Bool.false_eq_true, if_false, Option.some.injEq] at h
            exact h.symm
          · left
            refine ⟨rfl, ?_⟩
            simp only [if_true, Option.some.injEq] at h
            exact h.symm

theorem processCalls_history (o : Order) (inv : Inventory) (orders : List String)
    (pays : List Bool) (res : CallsResult)
    (h : processCalls o inv orders pays = some res) :
    res.orders.count o.order_id =
      orders.count o.order_id +
        (if o.is_processed then 0 else if true ∈ res.returns then 1 else 0) := by
  induction pays generalizing o inv orders res with
  | nil =>
    simp [processCalls] at h
    rw [← h]
    simp
  | cons pay rest ih =>
    rw [processCalls] at h
    rcases hp : process_order o inv orders pay with _ | r
    · rw [hp] at h; simp at h
    · rw [hp] at h
      dsimp only at h
      rcases hrec : processCalls r.order r.inv r.orders rest with _ | res'
      · rw [hrec] at h; simp at h
      · rw [hrec] at h
        dsimp only at h
        simp only [Option.some.injEq] at h
        subst h
        have hid : r.order.order_id = o.order_id := by
          rcases process_order_cases o inv orders pay r hp with ⟨_, hr⟩ | ⟨_, _, _, hcase⟩
          · rw [hr]
          · rcases hcase with ⟨_, hr⟩ | ⟨_, _, _, ⟨_, hr⟩ | ⟨_, hr⟩⟩ <;> rw [hr]
        have hc := ih r.order r.inv r.orders res' hrec
        rw [hid] at hc
        rcases process_order_cases o inv orders pay r hp with ⟨hpt, hr⟩ | ⟨hpf, _, _, hcase⟩
        · subst hr
          by_cases hmem : true ∈ res'.returns <;>
            simp [hpt, hmem] at hc ⊢ <;> omega
        · rcases hcase with ⟨_, hr⟩ | ⟨_, _, _, ⟨_, hr⟩ | ⟨_, hr⟩⟩ <;> subst hr <;>
            by_cases hmem : true ∈ res'.returns <;>
            simp [hpf, hmem, place_order, List.count_append] at hc ⊢ <;> omega

/-- C2 (amended): starting from a ledger in which every recorded stock
count is nonnegative, any sequence of `reserve` (`remove_stock`) calls and
`restock` calls whose restock quantities are nonnegative leaves every
recorded stock count nonnegative (runs aborted by a raised `KeyError`
produce no final state). -/
theorem stock_nonneg_invariant (inv : Inventory) (ops : List InvOp) (inv' : Inventory)
    (hnn : ∀ x ∈ inv.stock, 0 ≤ x.2)
    (hops : ∀ pid q, InvOp.restockOp pid q ∈ ops → 0 ≤ q)
    (h : runOps inv ops = some inv') :
    ∀ x ∈ inv'.stock, 0 ≤ x.2 := by
  induction ops generalizing inv with
  | nil =>
    simp [runOps] at h
    rw [← h]
    exact hnn
  | cons op rest ih =>
    cases op with
    | reserve pid q =>
      rw [runOps] at h
      rcases hr : remove_stock inv pid q with _ | ⟨ok, inv2, evs⟩
      · rw [hr] at h; simp at h
      · rw [hr] at h
        dsimp only at h
        exact ih inv2 (remove_stock_nonneg inv pid q _ hr hnn)
          (fun pid' q' hm => hops pid' q' (List.mem_cons_of_mem _ hm)) h
    | restockOp pid q =>
      rw [runOps] at h
      exact ih _ (restock_nonneg inv pid q (hops pid q (List.mem_cons_self _ _)) hnn)
        (fun pid' q' hm => hops pid' q' (List.mem_cons_of_mem _ hm)) h

/-- C1 (amended): an Order's processed flag is set exactly by the
`process()` call that returns success; once the flag is set, every
subsequent `process()` call returns `False` with the "already processed"
warning as its only event — order, inventory and history are returned
unchanged, so there is no stock decrement, no payment charge, no
notification and no history append.  A call that returns failure leaves
the flag unset, so a later call re-attempts processing instead of
reporting "already processed". -/
theorem process_order_idempotent_after_success (o : Order) (inv : Inventory)
    (orders : List String) (pay : Bool) (r : ProcessResult)
    (h : process_order o inv orders pay = some r) :
    (o.is_processed = true →
      r = ⟨false, o, inv, orders, [Event.alreadyProcessed o.order_id]⟩) ∧
    (o.is_processed = false → r.order.is_processed = r.returned) := by
  rcases process_order_cases o inv orders pay r h with ⟨hpt, hr⟩ | ⟨hpf, _, _, hcase⟩
  · exact ⟨fun _ => hr, fun hf => (by rw [hpt] at hf; cases hf)⟩
  · refine ⟨fun ht => (by rw [hpf] at ht; cases ht), fun _ => ?_⟩
    rcases hcase with ⟨_, hr⟩ | ⟨_, _, _, ⟨_, hr⟩ | ⟨_, hr⟩⟩ <;> subst hr <;> simp [hpf]

/-- Witness for C1 (amended): the processed order `wOrderDone` is returned
unchanged with only the warning event; a failed call on the unprocessed
`wOrder` leaves the flag equal to the returned value (`false`). -/
theorem process_order_idempotent_after_success_witness :
    (⟨false, wOrderDone, wInv, [], [Event.alreadyProcessed "O1"]⟩ : ProcessResult) =
      ⟨false, wOrderDone, wInv, [], [Event.alreadyProcessed wOrderDone.order_id]⟩ ∧
    (⟨false, wOrder, wInv8, [], [Event.charge "a@b.c" 6 false]⟩ :
        ProcessResult).order.is_processed =
      (⟨false, wOrder, wInv8, [], [Event.charge "a@b.c" 6 false]⟩ :
        ProcessResult).returned := by
  constructor
  · exact (process_order_idempotent_after_success wOrderDone wInv [] true _
      (by norm_num [process_order, wOrderDone])).1 rfl
  · exact (process_order_idempotent_after_success wOrder wInv [] false _
      (by norm_num [process_order, reserveItems, remove_stock, calculate_total,
        place_order, dget, dlookup, dset, wOrder, wInv, wInv8, wProd])).2 rfl

/-- C1 counterexample: after a first `process()` call that returned the
terminal failure outcome (payment declined), the second call does NOT
return the "already processed" signal and is not side-effect free: the
run of two failing calls on `wOrder` (stock 10, 2 units requested)
charges the gateway twice and decrements stock twice (10 → 8 → 6), and
emits no "already processed" warning at all. -/
theorem process_reattempts_after_failure :
    processCalls wOrder wInv [] [false, false] =
      some ⟨wOrder, wInv6, [],
        [Event.charge "a@b.c" 6 false, Event.charge "a@b.c" 6 false],
        [false, false]⟩ ∧
    Event.alreadyProcessed "O1" ∉
      ([Event.charge "a@b.c" 6 false, Event.charge "a@b.c" 6 false] : List Event) := by
  constructor
  · norm_num [processCalls, process_order, reserveItems, remove_stock, calculate_total,
      place_order, dget, dlookup, dset, wOrder, wInv, wInv6, wProd]
  · simp

/-- C2 counterexample: `restock` accepts a negative quantity, so one
`restock` call starting from the nonnegative ledger `wInv`
(stock `[("P1", 10)]`) records a negative stock count. -/
theorem negative_restock_breaks_nonneg :
    runOps wInv [InvOp.restockOp "P1" (-20)] =
      some ⟨[("P1", -10)], [("P1", wProd)]⟩ ∧
    dget [("P1", (-10 : Int))] "P1" < 0 := by
  constructor
  · norm_num [runOps, restock, dget, dlookup, dset, wInv]
  · decide

/-- Witness for C2 (amended): a concrete reserve-then-restock run with
nonnegative restock quantity ends with stock 3, and the invariant theorem
yields nonnegativity of the resulting entry. -/
theorem stock_nonneg_invariant_witness :
    runOps wInv [InvOp.reserve "P1" 9, InvOp.restockOp "P1" 2] =
      some ⟨[("P1", 3)], [("P1", wProd)]⟩ ∧
    0 ≤ (("P1", (3 : Int)) : String × Int).2 := by
  have hrun : runOps wInv [InvOp.reserve "P1" 9, InvOp.restockOp "P1" 2] =
      some ⟨[("P1", 3)], [("P1", wProd)]⟩ := by
    norm_num [runOps, remove_stock, restock, dget, dlookup, dset, wInv, wProd]
  refine ⟨hrun, ?_⟩
  exact stock_nonneg_invariant wInv _ _ (by decide)
    (by intro pid q hm; simp at hm; omega) hrun ("P1", 3) (by simp)

/-- C3 counterexample: a non-positive quantity passed to `restock` for a
catalogued product is NOT a no-op: `restock wInv "P1" (-3)` changes the
recorded stock from 10 to 7. -/
theorem restock_negative_not_noop :
    ((-3 : Int) ≤ 0) ∧
    restock wInv "P1" (-3) = ⟨[("P1", 7)], [("P1", wProd)]⟩ ∧
    restock wInv "P1" (-3) ≠ wInv := by
  refine ⟨by norm_num, ?_, ?_⟩
  · norm_num [restock, dget, dlookup, dset, wInv]
  · norm_num [restock, dget, dlookup, dset, wInv, wProd]

/-- C3 (amended): neither `restock` nor `add_product` validates the
quantity.  For a non-positive quantity, `restock` of an uncatalogued
product is a no-op, but `restock` of a catalogued product still adds the
quantity to its stock (a mutation whenever it is nonzero), and
`add_product` likewise adds its quantity unconditionally. -/
theorem restock_add_no_validation (inv : Inventory) (pid : String) (q : Int)
    (p : Product) (qa : Int) (_hq : q ≤ 0) :
    ((dlookup inv.products pid).isNone → restock inv pid q = inv) ∧
    ((dlookup inv.products pid).isSome →
      dget (restock inv pid q).stock pid = dget inv.stock pid + q) ∧
    dget (add_product inv p qa).stock p.product_id =
      dget inv.stock p.product_id + qa := by
  refine ⟨?_, ?_, ?_⟩
  · intro hn
    simp only [Option.isNone_iff_eq_none] at hn
    simp [restock, hn]
  · intro hs
    rw [restock, if_pos hs]
    exact dget_dset_self _ _ _
  · rw [add_product]
    exact dget_dset_self _ _ _

/-- Witness for C3 (amended): restock of an unknown product with quantity
`-3` is a no-op; restock of `"P1"` with `-3` adds `-3` to its stock; and
`add_product` with quantity `-4` adds `-4`. -/
theorem restock_add_no_validation_witness :
    restock ⟨[], []⟩ "PX" (-3) = ⟨[], []⟩ ∧
    dget (restock wInv "P1" (-3)).stock "P1" = dget wInv.stock "P1" + (-3) ∧
    dget (add_product wInv wProd (-4)).stock wProd.product_id =
      dget wInv.stock wProd.product_id + (-4) := by
  refine ⟨?_, ?_, ?_⟩
  · exact (restock_add_no_validation ⟨[], []⟩ "PX" (-3) wProd 0 (by norm_num)).1 (by decide)
  · exact (restock_add_no_validation wInv "P1" (-3) wProd 0 (by norm_num)).2.1 (by decide)
  · exact (restock_add_no_validation wInv "P1" (-3) wProd (-4) (by norm_num)).2.2

/-- C4 counterexample: for a product id with no stock entry and quantity
`0`, the guard `stock.get(pid, 0) >= quantity` passes (0 ≥ 0), and
`remove_stock` neither succeeds nor returns `False`: it raises
(`none`), so "succeeds iff stock ≥ quantity" and "failure returns false"
both fail at this input. -/
theorem remove_stock_guard_exception :
    dget (⟨[], []⟩ : Inventory).stock "P9" ≥ 0 ∧
    remove_stock ⟨[], []⟩ "P9" 0 = none := by
  constructor
  · decide
  · decide

/-- C4 (amended): when the product has both a stock entry and a catalog
entry, `remove_stock` succeeds and decrements the entry by the quantity
iff current stock ≥ quantity, and a failed guard (insufficient stock, or
an unknown product with a positive request) returns `False` with the
ledger unchanged; when the guard passes without those entries the call
raises instead of returning `False`. -/
theorem remove_stock_reserve_contract (inv : Inventory) (pid : String) (q : Int) :
    (dget inv.stock pid < q → remove_stock inv pid q = some (false, inv, [])) ∧
    ((dlookup inv.stock pid).isSome → (dlookup inv.products pid).isSome →
      q ≤ dget inv.stock pid →
      remove_stock inv pid q =
        some (true, { inv with stock := dset inv.stock pid (dget inv.stock pid - q) },
          if dget inv.stock pid - q < 5 then
            [Event.lowStockAlert (nameOf inv pid) (dget inv.stock pid - q)]
          else [])) := by
  constructor
  · intro hlt
    rw [remove_stock, if_neg (by omega)]
  · intro hs hp hge
    obtain ⟨cur, hcur⟩ := Option.isSome_iff_exists.mp hs
    obtain ⟨p, hpv⟩ := Option.isSome_iff_exists.mp hp
    have hdget : dget inv.stock pid = cur := by simp [dget, hcur]
    rw [remove_stock, if_pos (by omega), hcur]
    dsimp only
    rw [hpv]
    dsimp only
    rw [hdget]
    simp [nameOf, hpv]

/-- Witness for C4 (amended): on `wInv` (stock 10), requesting 11 units
fails with no mutation, and requesting 2 units succeeds and decrements
the entry to 8 with no alert. -/
theorem remove_stock_reserve_contract_witness :
    remove_stock wInv "P1" 11 = some (false, wInv, []) ∧
    remove_stock wInv "P1" 2 =
      some (true, { wInv with stock := dset wInv.stock "P1" (dget wInv.stock "P1" - 2) },
        if dget wInv.stock "P1" - 2 < 5 then
          [Event.lowStockAlert (nameOf wInv "P1") (dget wInv.stock "P1" - 2)]
        else []) := by
  constructor
  · exact (remove_stock_reserve_contract wInv "P1" 11).1 (by decide)
  · exact (remove_stock_reserve_contract wInv "P1" 2).2 (by decide) (by decide) (by decide)

/-- C5: for an order that starts unprocessed and not yet in the user's
history, after any sequence of `process()` calls (with arbitrary payment
outcomes) that runs without a raised exception, the order's id appears in
the history iff some call returned success, and then appears exactly
once — a failed call appends nothing and a successful one appends exactly
one entry. -/
theorem order_history_iff_success (o : Order) (inv : Inventory) (orders : List String)
    (pays : List Bool) (res : CallsResult)
    (h0 : o.is_processed = false) (h1 : o.order_id ∉ orders)
    (h : processCalls o inv orders pays = some res) :
    (o.order_id ∈ res.orders ↔ true ∈ res.returns) ∧
    res.orders.count o.order_id = (if true ∈ res.returns then 1 else 0) := by
  have hc := processCalls_history o inv orders pays res h
  rw [h0] at hc
  have h1' : orders.count o.order_id = 0 := List.count_eq_zero.mpr h1
  simp only [Bool.false_eq_true, if_false, h1', Nat.zero_add] at hc
  constructor
  · constructor
    · intro hmem
      by_cases hs : true ∈ res.returns
      · exact hs
      · rw [if_neg hs] at hc
        exact absurd hmem (List.count_eq_zero.mp hc)
    · intro hs
      rw [if_pos hs] at hc
      by_contra hnm
      rw [List.count_eq_zero.mpr hnm] at hc
      omega
  · exact hc

/-- Witness for C5: the run `[failure, success, already-processed]` on
`wOrder` ends with exactly one history entry for `"O1"` and one success
among the returns. -/
theorem order_history_iff_success_witness :
    (("O1" ∈ (["O1"] : List String)) ↔ (true ∈ [false, true, false])) ∧
    (["O1"] : List String).count "O1" = (if true ∈ [false, true, false] then 1 else 0) := by
  have hrun : processCalls wOrder wInv [] [false, true, false] =
      some ⟨wOrderDone, wInv6, ["O1"],
        [Event.charge "a@b.c" 6 false, Event.charge "a@b.c" 6 true,
         Event.orderConfirmed "a@b.c" "O1", Event.alreadyProcessed "O1"],
        [false, true, false]⟩ := by
    norm_num [processCalls, process_order, reserveItems, remove_stock, calculate_total,
      place_order, dget, dlookup, dset, wOrder, wOrderDone, wInv, wInv6, wProd]
  exact order_history_iff_success wOrder wInv [] [false, true, false] _ rfl
    (by simp) hrun

/-- C6: whenever a `process_order` call invokes the payment gateway, the
charged amount equals the sum over the order's line items of (catalog
unit price at processing time × requested quantity) — reservations do
not change the catalog, so the prices are those in effect when
`calculate_total` runs. -/
theorem charge_amount_eq_total (o : Order) (inv : Inventory) (orders : List String)
    (pay : Bool) (r : ProcessResult) (h : process_order o inv orders pay = some r)
    (e : String) (amt : ℚ) (b : Bool) (hc : Event.charge e amt b ∈ r.events) :
    amt = (o.items.map (fun it => priceOf inv it.1 * (it.2 : ℚ))).sum := by
  rcases process_order_cases o inv orders pay r h with ⟨_, hr⟩ | ⟨_, inv', evs, hcase⟩
  · subst hr; simp at hc
  · rcases hcase with ⟨hres, hr⟩ | ⟨total, hres, htot, hbranch⟩
    · subst hr
      exact absurd hc (reserveItems_no_charge inv o.items false inv' evs hres e amt b)
    · have hnc := reserveItems_no_charge inv o.items true inv' evs hres e amt b
      have hprod : inv'.products = inv.products := reserveItems_products _ _ _ _ _ hres
      have hpriceeq : ∀ pid, priceOf inv' pid = priceOf inv pid := by
        intro pid; rw [priceOf, priceOf, hprod]
      have hsum : total = (o.items.map (fun it => priceOf inv it.1 * (it.2 : ℚ))).sum := by
        rw [calculate_total_eq_sum inv' o.items total htot]
        simp only [hpriceeq]
      rcases hbranch with ⟨_, hr⟩ | ⟨_, hr⟩
      · subst hr
        simp only [List.mem_append, List.mem_cons, List.not_mem_nil, or_false,
          Event.charge.injEq, reduceCtorEq] at hc
        rcases hc with hc | ⟨_, hamt, _⟩
        · exact absurd hc hnc
        · rw [hamt, hsum]
      · subst hr
        simp only [List.mem_append, List.mem_cons, List.not_mem_nil, or_false,
          Event.charge.injEq] at hc
        rcases hc with hc | ⟨_, hamt, _⟩
        · exact absurd hc hnc
        · rw [hamt, hsum]

/-- Witness for C6: a declined-payment run of `wOrder` charges 6, which
equals the catalog price 3 of `"P1"` times the requested quantity 2. -/
theorem charge_amount_eq_total_witness :
    (6 : ℚ) = (wOrder.items.map (fun it => priceOf wInv it.1 * (it.2 : ℚ))).sum := by
  have h : process_order wOrder wInv [] false =
      some ⟨false, wOrder, wInv8, [], [Event.charge "a@b.c" 6 false]⟩ := by
    norm_num [process_order, reserveItems, remove_stock, calculate_total, place_order,
      dget, dlookup, dset, wOrder, wInv, wInv8, wProd]
  exact charge_amount_eq_total wOrder wInv [] false _ h "a@b.c" 6 false (by simp)

/-- C7: when every line-item reservation succeeds and the payment is then
declined, `process_order` returns `False`, the inventory is exactly the
post-reservation inventory (the stock decrements are kept — no
rollback), the user's history is unchanged, and the order stays
unprocessed. -/
theorem payment_failure_no_rollback (o : Order) (inv : Inventory) (orders : List String)
    (invR : Inventory) (evs : List Event) (total : ℚ)
    (h0 : o.is_processed = false)
    (hres : reserveItems inv o.items = some (true, invR, evs))
    (htot : calculate_total invR o.items = some total) :
    process_order o inv orders false =
      some ⟨false, o, invR, orders, evs ++ [Event.charge o.user_email total false]⟩ := by
  rw [process_order, if_neg (by simp [h0]), hres]
  dsimp only
  rw [htot]
  simp

/-- Witness for C7 (scenario D): reserving 2 units from stock 10 succeeds
(stock 8), the forced payment failure returns `False`, and the inventory
stays at 8 units with the history still empty. -/
theorem payment_failure_no_rollback_witness :
    process_order wOrder wInv [] false =
      some ⟨false, wOrder, wInv8, [], [Event.charge wOrder.user_email 6 false]⟩ :=
  payment_failure_no_rollback wOrder wInv [] wInv8 [] 6 rfl
    (by norm_num [reserveItems, remove_stock, dget, dlookup, dset, wOrder, wInv,
      wInv8, wProd])
    (by norm_num [calculate_total, dlookup, wOrder, wInv8, wProd])

/-- C8: a successful `remove_stock` call emits exactly one low-stock
alert for the product when the remaining stock is below the threshold 5,
and no event otherwise; a failed call emits no event. -/
theorem low_stock_alert_spec (inv : Inventory) (pid : String) (q : Int)
    (inv' : Inventory) (evs : List Event) :
    (remove_stock inv pid q = some (true, inv', evs) →
      evs = (if dget inv'.stock pid < 5 then
        [Event.lowStockAlert (nameOf inv pid) (dget inv'.stock pid)] else [])) ∧
    (remove_stock inv pid q = some (false, inv', evs) → evs = []) := by
  constructor
  · intro h
    rcases remove_stock_cases inv pid q _ h with ⟨hres, _⟩ | ⟨cur, p, hsl, hpl, hge, hres⟩
    · simp at hres
    · simp only [Prod.mk.injEq, true_and] at hres
      obtain ⟨hinv, hevs⟩ := hres
      have hstock : dget inv'.stock pid = cur - q := by
        rw [hinv]
        exact dget_dset_self _ _ _
      rw [hstock, hevs]
      simp [nameOf, hpl]
  · intro h
    rcases remove_stock_cases inv pid q _ h with ⟨hres, _⟩ | ⟨cur, p, hsl, hpl, hge, hres⟩
    · simp only [Prod.mk.injEq, true_and] at hres
      exact hres.2
    · simp at hres

/-- Witness for C8: removing 2 units from stock 6 leaves 4 (< 5) and
emits exactly the one alert; a failed removal (7 from stock 6) emits
nothing. -/
theorem low_stock_alert_spec_witness :
    ([Event.lowStockAlert "Widget" 4] : List Event) =
      (if dget wInv4.stock "P1" < 5 then
        [Event.lowStockAlert (nameOf wInv6 "P1") (dget wInv4.stock "P1")] else []) ∧
    (([] : List Event) = []) := by
  constructor
  · exact (low_stock_alert_spec wInv6 "P1" 2 wInv4 [Event.lowStockAlert "Widget" 4]).1
      (by norm_num [remove_stock, dget, dlookup, dset, nameOf, wInv6, wInv4, wProd])
  · exact (low_stock_alert_spec wInv6 "P1" 7 wInv6 []).2
      (by norm_num [remove_stock, dget, dlookup, wInv6, wProd])

/-- C9: `add_item` rejects a request with no mutation when the quantity
is non-positive or exceeds the currently observed stock; otherwise it
adds the quantity to the existing requested quantity for that product,
so repeated accepted calls accumulate. -/
theorem add_item_spec (inv : Inventory) (o : Order) (pid : String) (q : Int) :
    ((q ≤ 0 ∨ check_stock inv pid < q) → add_item inv o pid q = o) ∧
    (0 < q → q ≤ check_stock inv pid →
      add_item inv o pid q =
        { o with items := dset o.items pid ((dlookup o.items pid).getD 0 + q) } ∧
      dlookup (add_item inv o pid q).items pid =
        some ((dlookup o.items pid).getD 0 + q)) := by
  constructor
  · rintro (hq | hs)
    · rw [add_item, if_pos hq]
    · by_cases hq0 : q ≤ 0
      · rw [add_item, if_pos hq0]
      · rw [add_item, if_neg hq0, if_pos hs]
  · intro hq hs
    have h1 : add_item inv o pid q =
        { o with items := dset o.items pid ((dlookup o.items pid).getD 0 + q) } := by
      rw [add_item, if_neg (by omega), if_neg (by omega)]
    refine ⟨h1, ?_⟩
    rw [h1]
    exact dlookup_dset_self _ _ _

/-- Witness for C9: on the empty order `wOrder0` with stock 10, quantity
0 and quantity 11 are rejected unchanged, and quantity 2 is accepted and
recorded as 0 + 2. -/
theorem add_item_spec_witness :
    add_item wInv wOrder0 "P1" 0 = wOrder0 ∧
    add_item wInv wOrder0 "P1" 11 = wOrder0 ∧
    (add_item wInv wOrder0 "P1" 2 =
        { wOrder0 with
          items := dset wOrder0.items "P1" ((dlookup wOrder0.items "P1").getD 0 + 2) } ∧
      dlookup (add_item wInv wOrder0 "P1" 2).items "P1" =
        some ((dlookup wOrder0.items "P1").getD 0 + 2)) := by
  refine ⟨?_, ?_, ?_⟩
  · exact (add_item_spec wInv wOrder0 "P1" 0).1 (Or.inl (by norm_num))
  · exact (add_item_spec wInv wOrder0 "P1" 11).1 (Or.inr (by decide))
  · exact (add_item_spec wInv wOrder0 "P1" 2).2 (by norm_num) (by decide)

/-- C10: for a product id never added to the catalog and a non-positive
quantity (here `-1`), the guard `stock.get(pid, 0) >= quantity` passes,
and the subscript `self._stock[pid]` of a missing stock entry raises: the
embedded `remove_stock` returns `none` rather than `False`, so its error
branch is reachable. -/
theorem remove_stock_unknown_nonpositive_raises :
    dlookup wInv.products "P404" = none ∧
    ((-1 : Int) ≤ 0) ∧
    dget wInv.stock "P404" ≥ (-1) ∧
    remove_stock wInv "P404" (-1) = none := by
  refine ⟨by decide, by norm_num, by decide, by decide⟩

end ECommerce
